import Mathlib

/-!
Verification of a Go configuration-to-TOML converter (main.go).

The program is shallowly embedded over lists of characters.  Go strings are
modelled as `List Char`; the one place where Go indexes raw bytes
(`int(str[0])` in the `ord` operation) is modelled by computing the first
UTF-8 byte of the first character.  Go `int` is 64-bit two's complement, so
arithmetic results are wrapped with `wrap64`.  The symbol table
(`map[string]interface{}`) is an association list with distinct keys kept by
`setVar`; `lookupVar` is map access and `List.length` is Go's `len`.
-/

namespace ConfigConv

abbrev Str := List Char

/-- Characters of a string literal (Go strings handled at rune level). -/
def s2l (s : String) : Str := s.data

/-- Go `unicode.IsSpace`: the Unicode White_Space code points. -/
def goIsSpace (c : Char) : Bool :=
  c.toNat = 9 || c.toNat = 10 || c.toNat = 11 || c.toNat = 12 || c.toNat = 13 ||
  c.toNat = 32 || c.toNat = 133 || c.toNat = 160 || c.toNat = 0x1680 ||
  (0x2000 ≤ c.toNat && c.toNat ≤ 0x200A) || c.toNat = 0x2028 || c.toNat = 0x2029 ||
  c.toNat = 0x202F || c.toNat = 0x205F || c.toNat = 0x3000

/-- Go `strings.TrimSpace`, leading part. -/
def trimLeft (l : Str) : Str := l.dropWhile goIsSpace

/-- Go `strings.TrimSpace`, trailing part. -/
def trimRight (l : Str) : Str := (l.reverse.dropWhile goIsSpace).reverse

/-- Go `strings.TrimSpace`. -/
def trimSpace (l : Str) : Str := trimRight (trimLeft l)

/-- Go `strings.HasPrefix`. -/
def hasPref (p l : Str) : Bool := p.isPrefixOf l

/-- Go `strings.HasSuffix`. -/
def hasSuf (p l : Str) : Bool := p.isSuffixOf l

/-- Go `strings.Contains` (substring containment). -/
def containsSub (sub : Str) : Str → Bool
  | [] => sub.isEmpty
  | c :: rest => sub.isPrefixOf (c :: rest) || containsSub sub rest

/-- Go `strings.TrimPrefix`. -/
def trimPref (p l : Str) : Str := if hasPref p l then l.drop p.length else l

/-- Go `strings.TrimSuffix`. -/
def trimSuf (p l : Str) : Str := if hasSuf p l then l.take (l.length - p.length) else l

/-- Go `strings.Split` on a single-character separator (used with separators
`"\n"` and `","`). -/
def splitOnChar (sep : Char) : Str → List Str
  | [] => [[]]
  | c :: rest =>
    if c = sep then [] :: splitOnChar sep rest
    else
      match splitOnChar sep rest with
      | [] => [[c]]
      | f :: fs => (c :: f) :: fs

/-- Go `strings.Split(line, ":=")`: split on every non-overlapping leftmost
occurrence of the two-character separator. -/
def splitOnColonEq : Str → List Str
  | [] => [[]]
  | [c] => [[c]]
  | c1 :: c2 :: rest =>
    if c1 = ':' ∧ c2 = '=' then [] :: splitOnColonEq rest
    else
      match splitOnColonEq (c2 :: rest) with
      | [] => [[c1]]
      | f :: fs => (c1 :: f) :: fs

/-- Go `strings.SplitN(line, sep, 2)` for a one-character separator. -/
def splitN2 (sep : Char) : Str → List Str
  | [] => [[]]
  | c :: rest =>
    if c = sep then [[], rest]
    else
      match splitN2 sep rest with
      | [] => [[c]]
      | f :: fs => (c :: f) :: fs

/-- Worker for `fields`, carrying the current (reversed) field. -/
def fieldsAux (acc : Str) : Str → List Str
  | [] => if acc = [] then [] else [acc.reverse]
  | c :: rest =>
    if goIsSpace c then
      if acc = [] then fieldsAux [] rest
      else acc.reverse :: fieldsAux [] rest
    else fieldsAux (c :: acc) rest

/-- Go `strings.Fields`: split around runs of whitespace. -/
def fields (l : Str) : List Str := fieldsAux [] l

/-- Scan for the first `-\x7d` and return the text after it (the non-greedy
`[\s\S]*?-\x7d` part of the comment regex); `none` when the comment is
unterminated. -/
def scanClose : Str → Option Str
  | [] => none
  | c1 :: rest =>
    if c1 = '-' ∧ rest.head? = some '}' then some rest.tail
    else scanClose rest

/-- Fuel-indexed worker for `removeML`; the fuel only makes the recursion
structural, `removeML` supplies enough for it never to run out. -/
def removeMLF : Nat → Str → Str
  | 0, l => l
  | _ + 1, [] => []
  | fuel + 1, c1 :: rest =>
    if c1 = '{' ∧ rest.head? = some '-' then
      match scanClose rest.tail with
      | some rest' => removeMLF fuel rest'
      | none => c1 :: rest
    else c1 :: removeMLF fuel rest

/-- `removeMultilineComments` from main.go: the regex replacement
`\x7b-[\s\S]*?-\x7d` → empty, i.e. delete every leftmost, shortest block
comment; an opener with no later closer stays (the regex does not match
it). -/
def removeML (l : Str) : Str := removeMLF l.length l

/-! ## Data model -/

/-- The error values produced by main.go (`ErrInvalidSyntax`,
`ErrInvalidExpression`, and the various `fmt.Errorf` messages, identified by
kind and offending token). -/
inductive PError where
  | invalidSyntax : PError
  | invalidExpression : PError
  | invalidName (name : Str) : PError
  | unknownOperation (op : Str) : PError
  | varNotNumber (tok : Str) : PError
  | varNotString (tok : Str) : PError
  | unsupportedNumType (tok : Str) : PError
  | unsupportedStrType (tok : Str) : PError
  | emptyString : PError
  | numParseError : PError
deriving DecidableEq, Repr

/-- The dynamic values a `Parser.variables` entry can hold: Go `int`,
`string`, and `[]string`. -/
inductive Value where
  | int (n : Int) : Value
  | str (s : Str) : Value
  | arr (a : List Str) : Value
deriving DecidableEq, Repr

/-- The symbol table `p.variables : map[string]interface\x7b\x7d`, as an
association list whose keys `setVar` keeps distinct. -/
abbrev Table := List (Str × Value)

/-- Go map read `p.variables[k]`. -/
def lookupVar (st : Table) (k : Str) : Option Value :=
  (st.find? (fun p => p.1 == k)).map (fun p => p.2)

/-- Go map write `p.variables[k] = v`: overwrite in place, else append.
`List.length` of the table then models Go `len(p.variables)`. -/
def setVar (st : Table) (k : Str) (v : Value) : Table :=
  if st.any (fun p => p.1 == k) then
    st.map (fun p => if p.1 == k then (k, v) else p)
  else st ++ [(k, v)]

/-! ## Numbers: strconv.Atoi / strconv.ParseInt(-, 8, 64), 64-bit ints -/

def int64Max : Int := 2 ^ 63 - 1

def int64Min : Int := -(2 ^ 63)

/-- Two's-complement wrap-around of Go 64-bit `int` arithmetic. -/
def wrap64 (x : Int) : Int := (x + 2 ^ 63) % 2 ^ 64 - 2 ^ 63

/-- A decimal digit, per strconv. -/
def isDecDigit (c : Char) : Bool := 48 ≤ c.toNat && c.toNat ≤ 57

/-- An octal digit, per strconv. -/
def isOctDigit (c : Char) : Bool := 48 ≤ c.toNat && c.toNat ≤ 55

/-- strconv digit parsing after the sign: all characters must be digits of
the base, the value must fit in a signed 64-bit int. -/
def goParseMag (digOk : Char → Bool) (base : Nat) (neg : Bool) (mag : Str) :
    Except PError Int :=
  if mag = [] then .error .numParseError
  else if mag.all digOk then
    let v : Nat := mag.foldl (fun a c => a * base + (c.toNat - 48)) 0
    if neg then
      if (v : Int) ≤ 2 ^ 63 then .ok (-(v : Int)) else .error .numParseError
    else
      if (v : Int) ≤ 2 ^ 63 - 1 then .ok (v : Int) else .error .numParseError
  else .error .numParseError

/-- strconv.ParseInt-style parse: optional single sign, then digits. -/
def goParseSigned (digOk : Char → Bool) (base : Nat) (s : Str) :
    Except PError Int :=
  match s with
  | [] => .error .numParseError
  | c :: r =>
    if c = '+' then goParseMag digOk base false r
    else if c = '-' then goParseMag digOk base true r
    else goParseMag digOk base false (c :: r)

/-- Go `strconv.Atoi`. -/
def goAtoi (s : Str) : Except PError Int := goParseSigned isDecDigit 10 s

/-- Go `strconv.ParseInt(s, 8, 64)`. -/
def goParseOct (s : Str) : Except PError Int := goParseSigned isOctDigit 8 s

/-- Whether an `Except` carries a value (Go `err == nil`). -/
def excOk {α : Type} : Except PError α → Bool
  | .ok _ => true
  | .error _ => false

/-- `isNumber` from main.go. -/
def isNumber (s : Str) : Bool :=
  if hasPref (s2l "0o") s || hasPref (s2l "0O") s then excOk (goParseOct (s.drop 2))
  else excOk (goAtoi s)

/-- `parseNumber` from main.go. -/
def parseNumber (s : Str) : Except PError Int :=
  if hasPref (s2l "0o") s || hasPref (s2l "0O") s then goParseOct (s.drop 2)
  else goAtoi s

/-- `isValidName` from main.go: nonempty, every rune uppercase ASCII or
underscore. -/
def isValidName (s : Str) : Bool :=
  if s = [] then false
  else s.all (fun c => (65 ≤ c.toNat && c.toNat ≤ 90) || c.toNat = 95)

/-! ## Output formatting -/

/-- Go `fmt.Sprintf("%d", n)` for an in-range `int`. -/
def formatInt (n : Int) : Str := (toString n).data

/-- Join with a separator, Go `strings.Join` shape. -/
def joinSep (sep : Str) : List Str → Str
  | [] => []
  | [x] => x
  | x :: xs => x ++ sep ++ joinSep sep xs

/-- Go `fmt.Sprintf("%v", x)` on the three value kinds (`[]string` prints
space-separated inside brackets). -/
def goSprintV : Value → Str
  | .int n => formatInt n
  | .str s => s
  | .arr a => '[' :: (joinSep [' '] a ++ [']'])

/-- Wrap in double quotes, Go `fmt.Sprintf(""%s"", v)`. -/
def quoteStr (s : Str) : Str := '"' :: (s ++ ['"'])

/-! ## The interpreter (handleConstant / handleKeyValue helpers) -/

/-- `getNumberValue` from main.go. -/
def getNumberValue (st : Table) (token : Str) : Except PError Int :=
  match lookupVar st token with
  | some (.int v) => .ok v
  | some (.str _) => .error (.varNotNumber token)
  | some _ => .error (.unsupportedNumType token)
  | none => parseNumber token

/-- `getStringValue` from main.go. -/
def getStringValue (st : Table) (token : Str) : Except PError Str :=
  match lookupVar st token with
  | some (.str v) => .ok v
  | some (.int _) => .error (.varNotString token)
  | some _ => .error (.unsupportedStrType token)
  | none =>
    if hasPref (s2l "@\"") token && hasSuf (s2l "\"") token then
      .ok (trimSuf (s2l "\"") (trimPref (s2l "@\"") token))
    else .ok token

/-- The quote-stripping step inside the `ord` case (lines 305-308 of
main.go). -/
def stripQuotes (s : Str) : Str :=
  if hasPref (s2l "\"") s && hasSuf (s2l "\"") s then
    trimSuf (s2l "\"") (trimPref (s2l "\"") s)
  else s

/-- First byte of the UTF-8 encoding of a character: Go `int(str[0])` where
`str` is a Go (byte-indexed) string. -/
def utf8FirstByte (c : Char) : Nat :=
  if c.toNat < 0x80 then c.toNat
  else if c.toNat < 0x800 then 0xC0 + c.toNat / 0x40
  else if c.toNat < 0x10000 then 0xE0 + c.toNat / 0x1000
  else 0xF0 + c.toNat / 0x40000

/-- The `ord` arm of `evaluateExpression` after the operand is resolved:
error on empty text, optional surrounding-double-quote stripping, then the
first byte. -/
def ordCore (s0 : Str) : Except PError Int :=
  if s0 = [] then .error .emptyString
  else
    match stripQuotes s0 with
    | [] => .error .emptyString
    | c :: _ => .ok ((utf8FirstByte c : Nat) : Int)

/-- Dispatch of `evaluateExpression` on the leading operator token. -/
def evalOp (st : Table) (op : Str) (args : List Str) : Except PError Int :=
  if op = s2l "+" then
    match args with
    | [t1, t2] =>
      match getNumberValue st t1 with
      | .error e => .error e
      | .ok a =>
        match getNumberValue st t2 with
        | .error e => .error e
        | .ok b => .ok (wrap64 (a + b))
    | _ => .error .invalidExpression
  else if op = s2l "-" then
    match args with
    | [t1, t2] =>
      match getNumberValue st t1 with
      | .error e => .error e
      | .ok a =>
        match getNumberValue st t2 with
        | .error e => .error e
        | .ok b => .ok (wrap64 (a - b))
    | _ => .error .invalidExpression
  else if op = s2l "ord" then
    match args with
    | [t1] =>
      match getStringValue st t1 with
      | .error e => .error e
      | .ok s0 => ordCore s0
    | _ => .error .invalidExpression
  else if op = s2l "abs" then
    match args with
    | [t1] =>
      match getNumberValue st t1 with
      | .error e => .error e
      | .ok v => .ok (if v < 0 then wrap64 (-v) else v)
    | _ => .error .invalidExpression
  else .error (.unknownOperation op)

/-- `evaluateExpression` from main.go: whitespace-tokenize, require at least
two tokens, dispatch on the operator. -/
def evaluateExpression (st : Table) (expr : Str) : Except PError Int :=
  match fields expr with
  | [] => .error .invalidExpression
  | [_] => .error .invalidExpression
  | op :: args => evalOp st op args

/-- `resolveValue` from main.go. -/
def resolveValue (st : Table) (valueStr : Str) : Except PError Value :=
  match lookupVar st valueStr with
  | some val => .ok val
  | none =>
    if isNumber valueStr then
      match parseNumber valueStr with
      | .ok n => .ok (.int n)
      | .error e => .error e
    else if hasPref (s2l "@\"") valueStr && hasSuf (s2l "\"") valueStr then
      .ok (.str (trimSuf (s2l "\"") (trimPref (s2l "@\"") valueStr)))
    else .ok (.str valueStr)

/-- The element loop shared by the two array branches of main.go: trim each
piece, skip empties, resolve, stringify with `%v`. -/
def resolveElems (st : Table) : List Str → Except PError (List Str)
  | [] => .ok []
  | v :: vs =>
    let v' := trimSpace v
    if v' = [] then resolveElems st vs
    else
      match resolveValue st v' with
      | .error e => .error e
      | .ok r =>
        match resolveElems st vs with
        | .error e => .error e
        | .ok rest => .ok (goSprintV r :: rest)

/-- The body of `handleConstant` after the `:=`-split produced exactly two
parts (`name`/`valueStr` classification, main.go lines 117-183). -/
def handleConstantParts (st : Table) (p0 p1 : Str) : Except PError Table :=
    let name := trimSpace p0
    let valueStr := trimSpace p1
    if isValidName name = false then .error (.invalidName name)
    else if hasPref (s2l "?(") valueStr && hasSuf (s2l ")") valueStr then
      match evaluateExpression st (trimSuf (s2l ")") (trimPref (s2l "?(") valueStr)) with
      | .error e => .error e
      | .ok v => .ok (setVar st name (.int v))
    else if hasPref (s2l "[") valueStr && hasSuf (s2l "]") valueStr then
      match resolveElems st (splitOnChar ',' (trimSuf (s2l "]") (trimPref (s2l "[") valueStr))) with
      | .error e => .error e
      | .ok arr => .ok (setVar st name (.arr arr))
    else if hasPref (s2l "@\"") valueStr && hasSuf (s2l "\"") valueStr then
      .ok (setVar st name (.str (trimSuf (s2l "\"") (trimPref (s2l "@\"") valueStr))))
    else if isNumber valueStr then
      match parseNumber valueStr with
      | .error e => .error e
      | .ok v => .ok (setVar st name (.int v))
    else
      match lookupVar st valueStr with
      | some val => .ok (setVar st name val)
      | none => .ok (setVar st name (.str valueStr))

/-- `handleConstant` from main.go: strip the trailing `;`, split on `:=`,
require exactly two parts, then classify. -/
def handleConstant (st : Table) (line0 : Str) : Except PError Table :=
  match splitOnColonEq (trimSuf (s2l ";") line0) with
  | [p0, p1] => handleConstantParts st p0 p1
  | _ => .error .invalidSyntax

/-- The per-element formatting of the `[]string` case of `handleKeyValue`:
unquoted when it parses as an integer or is a boolean literal. -/
def formatItem (item : Str) : Str :=
  if excOk (goAtoi item) = false ∧ item ≠ s2l "true" ∧ item ≠ s2l "false" then
    quoteStr item
  else item

/-- The `", "`-joined element list of the `[]string` case. -/
def formatItems : List Str → Str
  | [] => []
  | [x] => formatItem x
  | x :: xs => formatItem x ++ s2l ", " ++ formatItems xs

/-- The TOML value formatting switch of `handleKeyValue`. -/
def formatValue : Value → Str
  | .str v => if v = s2l "true" ∨ v = s2l "false" then v else quoteStr v
  | .int n => formatInt n
  | .arr items => '[' :: (formatItems items ++ [']'])

/-- `handleKeyValue` from main.go; returns the text appended to the output
builder. -/
def handleKeyValue (st : Table) (line : Str) : Except PError Str :=
  match splitN2 '=' line with
  | [p0, p1] =>
    match resolveValue st (trimSpace p1) with
    | .error e => .error e
    | .ok value => .ok (trimSpace p0 ++ s2l " = " ++ formatValue value ++ ['\n'])
  | _ => .error .invalidSyntax

/-! ## The Parse loop -/

/-- The body of the `for _, line := range lines` loop of `Parse`: returns the
updated table and the text appended to the output builder for this line. -/
def processLine (st : Table) (rawLine : Str) : Except PError (Table × Str) :=
  let line := trimSpace rawLine
  if line = [] then .ok (st, [])
  else if hasPref (s2l "//") line then .ok (st, [])
  else if containsSub (s2l ":=") line && hasSuf (s2l ";") line then
    match handleConstant st line with
    | .error e => .error e
    | .ok st' => .ok (st', [])
  else if hasPref (s2l "[") line && hasSuf (s2l "]") line then
    let inner := trimSpace (trimSuf (s2l "]") (trimPref (s2l "[") line))
    if containsSub (s2l ",") inner && !containsSub (s2l "=") inner then
      match resolveElems st (splitOnChar ',' inner) with
      | .error e => .error e
      | .ok arr =>
        .ok (setVar st (s2l "_array_" ++ formatInt (st.length : Int)) (.arr arr), [])
    else .ok (st, '[' :: (inner ++ [']', '\n']))
  else if containsSub (s2l "=") line && !containsSub (s2l ":=") line then
    match handleKeyValue st line with
    | .error e => .error e
    | .ok out => .ok (st, out)
  else .ok (st, [])

/-- The whole line loop, accumulating the output builder. -/
def runLines (st : Table) : List Str → Except PError (Table × Str)
  | [] => .ok (st, [])
  | l :: ls =>
    match processLine st l with
    | .error e => .error e
    | .ok (st', out1) =>
      match runLines st' ls with
      | .error e => .error e
      | .ok (st'', out2) => .ok (st'', out1 ++ out2)

/-- `Parse` from main.go on in-memory content: strip block comments, split
into lines, run the loop, return the output text (the file write happens
only on success). -/
def ParseRun (content : Str) : Except PError Str :=
  match runLines [] (splitOnChar '\n' (removeML content)) with
  | .error e => .error e
  | .ok (_, out) => .ok out

/-- The effect of `Parse` on the output file, modelled as the file's
contents before the call (`none` = file absent): `os.WriteFile` runs only
after the loop finished without error. -/
def ParseFile (content : Str) (prev : Option Str) : Option Str :=
  match ParseRun content with
  | .ok out => some out
  | .error _ => prev

/-! ## Helper lemmas -/

/-- A nonempty string whose first character is not `"` is unchanged by the
ord-case quote stripping. -/
theorem stripQuotes_of_head_ne (c : Char) (cs : Str) (hq : c ≠ '"') :
    stripQuotes (c :: cs) = c :: cs := by
  have hp : hasPref (s2l "\"") (c :: cs) = false := by
    simp [hasPref, s2l, List.isPrefixOf]
    exact fun h => hq h.symm
  simp [stripQuotes, hp]

/-- `parseNumber` succeeds exactly when `isNumber` holds: the two walk the
same branches. -/
theorem excOk_parseNumber (s : Str) : excOk (parseNumber s) = isNumber s := by
  unfold parseNumber isNumber
  split <;> rfl

/-- Resolving a cons cell of the element loop when the head trims nonempty
and everything succeeds. -/
theorem resolveElems_cons_ok (st : Table) (v : Str) (vs : List Str) (r : Value)
    (rest : List Str) (hv : trimSpace v ≠ []) (h : resolveValue st (trimSpace v) = .ok r)
    (hrest : resolveElems st vs = .ok rest) :
    resolveElems st (v :: vs) = .ok (goSprintV r :: rest) := by
  simp only [resolveElems]
  rw [if_neg hv, h, hrest]

/-- Whether a string contains the `:=` separator (occurrence test used to
reason about `splitOnColonEq`). -/
def hasCE : Str → Bool
  | [] => false
  | [_] => false
  | c1 :: c2 :: rest => (decide (c1 = ':' ∧ c2 = '=')) || hasCE (c2 :: rest)

theorem splitOnColonEq_no_sep : ∀ l : Str, hasCE l = false → splitOnColonEq l = [l]
  | [], _ => rfl
  | [_], _ => rfl
  | c1 :: c2 :: rest, h => by
    simp only [hasCE, Bool.or_eq_false_iff, decide_eq_false_iff_not] at h
    simp only [splitOnColonEq, if_neg h.1, splitOnColonEq_no_sep (c2 :: rest) h.2]

theorem splitOnColonEq_append : ∀ l : Str, ∀ r : Str, hasCE l = false →
    splitOnColonEq (l ++ ':' :: '=' :: r) = l :: splitOnColonEq r
  | [], r, _ => by simp [splitOnColonEq]
  | [c], r, _ => by
    have h1 : ¬(c = ':' ∧ ':' = '=') := fun hx => absurd hx.2 (by decide)
    have h2 : splitOnColonEq (':' :: '=' :: r) = [] :: splitOnColonEq r := by
      simp [splitOnColonEq]
    show (if c = ':' ∧ ':' = '=' then [] :: splitOnColonEq ('=' :: r)
      else
        match splitOnColonEq (':' :: '=' :: r) with
        | [] => [[c]]
        | f :: fs => (c :: f) :: fs) = [c] :: splitOnColonEq r
    rw [if_neg h1, h2]
  | c1 :: c2 :: l', r, h => by
    simp only [hasCE, Bool.or_eq_false_iff, decide_eq_false_iff_not] at h
    have ih := splitOnColonEq_append (c2 :: l') r h.2
    simp only [List.cons_append] at ih ⊢
    simp only [splitOnColonEq, if_neg h.1, ih]

theorem dropWhile_eq_self_of_head (p : Char → Bool) (l : Str)
    (h : ∀ c, l.head? = some c → p c = false) : l.dropWhile p = l := by
  cases l with
  | nil => rfl
  | cons c cs => simp [List.dropWhile, h c rfl]

theorem trimRight_append_space (l : Str) : trimRight (l ++ [' ']) = trimRight l := by
  simp [trimRight, List.dropWhile, goIsSpace]

/-- A `trimSpace` fixpoint is a fixpoint of both one-sided trims. -/
theorem trims_of_fix (l : Str) (h : trimSpace l = l) :
    trimLeft l = l ∧ trimRight l = l := by
  have hsuf : trimLeft l <:+ l := List.dropWhile_suffix _
  have h4 : (trimRight (trimLeft l)).length ≤ (trimLeft l).length := by
    simpa [trimRight] using (List.dropWhile_suffix (l := (trimLeft l).reverse) goIsSpace).length_le
  have h3 : (trimSpace l).length = l.length := by rw [h]
  have h5 : (trimLeft l).length = l.length := by
    have h2 : (trimLeft l).length ≤ l.length := hsuf.length_le
    simp only [trimSpace] at h3
    omega
  have hL : trimLeft l = l := hsuf.eq_of_length h5
  refine ⟨hL, ?_⟩
  have h6 : trimSpace l = trimRight (trimLeft l) := rfl
  rw [h6, hL] at h
  exact h

theorem trimSpace_append_space (l : Str) (h : trimSpace l = l) :
    trimSpace (l ++ [' ']) = l := by
  obtain ⟨hL, hR⟩ := trims_of_fix l h
  cases l with
  | nil => rfl
  | cons c cs =>
    have hc : goIsSpace c = false := by
      by_contra hc'
      simp only [Bool.not_eq_false] at hc'
      have hd : trimLeft (c :: cs) = trimLeft cs := by
        simp [trimLeft, List.dropWhile, hc']
      have hlen := congrArg List.length hL
      rw [hd] at hlen
      have hle := (List.dropWhile_suffix (l := cs) goIsSpace).length_le
      simp only [trimLeft, List.length_cons] at hlen hle
      omega
    have hfront : trimLeft ((c :: cs) ++ [' ']) = (c :: cs) ++ [' '] := by
      simp [trimLeft, List.dropWhile, hc]
    have : trimSpace ((c :: cs) ++ [' ']) = trimRight ((c :: cs) ++ [' ']) := by
      rw [trimSpace, hfront]
    rw [this, trimRight_append_space, hR]

theorem trimSuf_concat (c : Char) (l : Str) : trimSuf [c] (l ++ [c]) = l := by
  have h : hasSuf [c] (l ++ [c]) = true := by
    simp [hasSuf, List.isSuffixOf, List.isPrefixOf]
  simp only [trimSuf, h, if_true, List.length_append, List.length_singleton,
    Nat.add_sub_cancel]
  exact List.take_left l [c]

/-- The standard base-8 reading of a digit string (the spec's "standard
base-8 interpretation", via Mathlib's little-endian `Nat.ofDigits`). -/
def octInterp (ds : Str) : Nat :=
  Nat.ofDigits 8 ((ds.map fun c => c.toNat - 48)).reverse

theorem hasCE_of_no_colon : ∀ l : Str, (∀ c ∈ l, c ≠ ':') → hasCE l = false
  | [], _ => rfl
  | [_], _ => rfl
  | c1 :: c2 :: rest, h => by
    have h1 : c1 ≠ ':' := h c1 (by simp)
    have ih := hasCE_of_no_colon (c2 :: rest) (fun c hc => h c (List.mem_cons_of_mem _ hc))
    simp [hasCE, ih, h1]

theorem goIsSpace_of_oct (c : Char) (h : isOctDigit c = true) : goIsSpace c = false := by
  simp only [isOctDigit, Bool.and_eq_true, decide_eq_true_eq] at h
  simp only [goIsSpace, Bool.or_eq_false_iff, decide_eq_false_iff_not, Bool.and_eq_false_iff,
    decide_eq_false_iff_not]
  omega

theorem ne_colon_of_oct (c : Char) (h : isOctDigit c = true) : c ≠ ':' := by
  simp only [isOctDigit, Bool.and_eq_true, decide_eq_true_eq] at h
  intro hc
  subst hc
  revert h
  decide

theorem foldl_digits_eq_ofDigits (base : Nat) (f : Char → Nat) :
    ∀ (ds : Str) (acc : Nat),
      ds.foldl (fun a c => a * base + f c) acc =
        acc * base ^ ds.length + Nat.ofDigits base ((ds.map f).reverse)
  | [], acc => by simp [Nat.ofDigits]
  | d :: rest, acc => by
    have ih := foldl_digits_eq_ofDigits base f rest (acc * base + f d)
    simp only [List.foldl_cons, ih, List.map_cons, List.reverse_cons, List.length_cons]
    rw [Nat.ofDigits_append]
    simp only [Nat.ofDigits_singleton, List.length_reverse, List.length_map]
    ring

theorem trimSpace_oct (ds : Str) (hd : ∀ c ∈ ds, isOctDigit c = true) :
    trimSpace (' ' :: '0' :: 'o' :: ds) = '0' :: 'o' :: ds := by
  have hsp : goIsSpace ' ' = true := by decide
  have h0 : goIsSpace '0' = false := by decide
  have h1 : trimLeft (' ' :: '0' :: 'o' :: ds) = '0' :: 'o' :: ds := by
    simp [trimLeft, List.dropWhile_cons, hsp, h0]
  have h2 : (('0' :: 'o' :: ds).reverse).dropWhile goIsSpace = ('0' :: 'o' :: ds).reverse := by
    apply dropWhile_eq_self_of_head
    intro c hc
    rcases ds.eq_nil_or_concat' with hnil | ⟨L, b, hL⟩
    · subst hnil
      simp at hc
      subst hc
      decide
    · subst hL
      rw [show ('0' :: 'o' :: (L ++ [b])).reverse = b :: ((L.reverse) ++ ['o', '0']) from by
        simp] at hc
      simp only [List.head?_cons, Option.some_inj] at hc
      subst hc
      exact goIsSpace_of_oct b (hd b (by simp))
  rw [trimSpace, h1, trimRight, h2, List.reverse_reverse]

theorem goParseOct_digits (d : Char) (ds' : Str)
    (hd : ∀ c ∈ d :: ds', isOctDigit c = true)
    (hr : ((octInterp (d :: ds') : Nat) : Int) ≤ int64Max) :
    goParseOct (d :: ds') = .ok ((octInterp (d :: ds') : Nat) : Int) := by
  have hd0 := hd d (by simp)
  have hplus : ¬(d = '+') := by
    intro h
    rw [h] at hd0
    exact absurd hd0 (by decide)
  have hminus : ¬(d = '-') := by
    intro h
    rw [h] at hd0
    exact absurd hd0 (by decide)
  have hall : (d :: ds').all isOctDigit = true := List.all_eq_true.2 hd
  have hfold : (d :: ds').foldl (fun a c => a * 8 + (c.toNat - 48)) 0 = octInterp (d :: ds') := by
    rw [foldl_digits_eq_ofDigits]
    simp [octInterp]
  have hr' : ((octInterp (d :: ds') : Nat) : Int) ≤ 2 ^ 63 - 1 := by
    simpa [int64Max] using hr
  rw [show goParseOct (d :: ds') = goParseMag isOctDigit 8 false (d :: ds') from by
    show (if d = '+' then goParseMag isOctDigit 8 false ds'
      else if d = '-' then goParseMag isOctDigit 8 true ds'
      else goParseMag isOctDigit 8 false (d :: ds')) = goParseMag isOctDigit 8 false (d :: ds')
    rw [if_neg hplus, if_neg hminus]]
  unfold goParseMag
  rw [if_neg (List.cons_ne_nil d ds'), if_pos hall]
  simp only [hfold, Bool.false_eq_true, if_false]
  rw [if_pos hr']

theorem hasCE_append_nonEq : ∀ l : Str, ∀ c : Char, c ≠ '=' → hasCE l = false →
    hasCE (l ++ [c]) = false
  | [], c, _, _ => by simp [hasCE]
  | [a], c, hc, _ => by simp [hasCE, hc]
  | a :: b :: l', c, hc, h => by
    simp only [hasCE, Bool.or_eq_false_iff, decide_eq_false_iff_not] at h
    have ih := hasCE_append_nonEq (b :: l') c hc h.2
    simp only [List.cons_append] at ih ⊢
    simp only [hasCE, ih, Bool.or_false, decide_eq_false_iff_not]
    exact h.1

theorem trimSpace_cons_space (l : Str) : trimSpace (' ' :: l) = trimSpace l := by
  have h : trimLeft (' ' :: l) = trimLeft l := by
    simp [trimLeft, List.dropWhile_cons, show goIsSpace ' ' = true from by decide]
  rw [trimSpace, h, trimSpace]

/-- The naming rule `^[A-Z_]+$` as the spec states it. -/
def matchesNameRE (s : Str) : Prop :=
  s ≠ [] ∧ ∀ c ∈ s, (65 ≤ c.toNat ∧ c.toNat ≤ 90) ∨ c.toNat = 95

instance (s : Str) : Decidable (matchesNameRE s) := by
  unfold matchesNameRE
  infer_instance

theorem isValidName_iff (s : Str) : isValidName s = true ↔ matchesNameRE s := by
  unfold isValidName matchesNameRE
  rcases eq_or_ne s [] with rfl | hs
  · simp
  · rw [if_neg hs]
    simp [hs, List.all_eq_true]

/-! ## Claims -/

/-- C1: if `Parse` hits any validation or evaluation error, it returns the
error and never reaches the final `os.WriteFile`: the output file keeps its
prior state, in particular none is created. -/
theorem c1_no_output_on_error (content : Str) (prev : Option Str) (e : PError)
    (h : ParseRun content = .error e) : ParseFile content prev = prev := by
  simp [ParseFile, h]

theorem c1_no_output_on_error_witness :
    ParseRun (s2l "a := 1;") = .error (.invalidName (s2l "a")) ∧
    ParseFile (s2l "a := 1;") none = none :=
  ⟨rfl, c1_no_output_on_error _ none _ rfl⟩

/-- C2: a multi-line block comment, then `VALUE := 42;`, `[section]` and
`key = VALUE` produce exactly `[section]\nkey = 42\n`: the comment
contributes no tokens and the declaration emits nothing. -/
theorem c2_comment_decl_section_keyvalue :
    ParseRun (s2l "\x7b- first line\nsecond line -\x7d\nVALUE := 42;\n[section]\nkey = VALUE") =
      .ok (s2l "[section]\nkey = 42\n") := rfl

/-- C3 counterexample: with `S` bound to the one-character text `é`
(code point 233), `N := ?(ord S);` binds 195 — the first UTF-8 byte — not
the code point; and `?(ord "Z")`, whose operand resolves to the text `"Z"`
with first character `"` (code point 34), binds 90 after the ord case strips
the surrounding quotes.  Both refute "the code point of the first character
of that text". -/
theorem c3_counterexample :
    handleConstant [(s2l "S", Value.str (s2l "é"))] (s2l "N := ?(ord S);") =
      .ok [(s2l "S", Value.str (s2l "é")), (s2l "N", Value.int 195)] ∧
    ('é' : Char).toNat = 233 ∧ (195 : Int) ≠ 233 ∧
    handleConstant [] (s2l "N := ?(ord \"Z\");") = .ok [(s2l "N", Value.int 90)] ∧
    ('"' : Char).toNat = 34 ∧ (90 : Int) ≠ 34 :=
  ⟨rfl, by decide, by decide, rfl, by decide, by decide⟩

/-- C3 amended: for `N := ?(ord S);` with `S` bound to nonempty text, the
integer bound to `N` is the first byte of the UTF-8 encoding of the text
after the ord case's optional stripping of a surrounding double-quote pair
(when stripping leaves text); for an ASCII first character this equals its
code point, but in general it is the UTF-8 lead byte, not the code point. -/
theorem c3_amended_ord_is_first_utf8_byte (st : Table) (s : Str) (c : Char) (cs : Str)
    (hS : lookupVar st (s2l "S") = some (.str s)) (hs : s ≠ [])
    (hstrip : stripQuotes s = c :: cs) :
    handleConstant st (s2l "N := ?(ord S);") =
      .ok (setVar st (s2l "N") (.int (utf8FirstByte c))) ∧
    (c.toNat < 128 → (utf8FirstByte c : Int) = (c.toNat : Int)) := by
  have h1 : getStringValue st (s2l "S") = .ok s := by
    simp [getStringValue, hS]
  have h2 : evaluateExpression st (s2l "ord S") = ordCore s := by
    rw [show evaluateExpression st (s2l "ord S") =
        (match getStringValue st (s2l "S") with
         | .error e => .error e
         | .ok s0 => ordCore s0) from rfl, h1]
  have h3 : ordCore s = .ok ((utf8FirstByte c : Nat) : Int) := by
    rw [ordCore, if_neg hs, hstrip]
  constructor
  · rw [show handleConstant st (s2l "N := ?(ord S);") =
        (match evaluateExpression st (s2l "ord S") with
         | .error e => .error e
         | .ok v => .ok (setVar st (s2l "N") (.int v))) from rfl, h2, h3]
  · intro hc
    simp [utf8FirstByte, hc]

theorem c3_amended_witness :
    lookupVar [(s2l "S", Value.str (s2l "\"Z\""))] (s2l "S") = some (.str (s2l "\"Z\"")) ∧
    (s2l "\"Z\"" : Str) ≠ [] ∧ stripQuotes (s2l "\"Z\"") = 'Z' :: [] ∧
    handleConstant [(s2l "S", Value.str (s2l "\"Z\""))] (s2l "N := ?(ord S);") =
      .ok (setVar [(s2l "S", Value.str (s2l "\"Z\""))] (s2l "N") (.int (utf8FirstByte 'Z'))) :=
  ⟨rfl, by decide, by decide,
    (c3_amended_ord_is_first_utf8_byte [(s2l "S", Value.str (s2l "\"Z\""))] (s2l "\"Z\"")
      'Z' [] (by rfl) (by decide) (by decide)).1⟩

/-- C4 counterexample: `FOO` names no bound symbol, yet `ord FOO` succeeds
with the first byte of the raw token instead of failing — string context
silently treats the undefined reference as opaque text. -/
theorem c4_counterexample : evaluateExpression [] (s2l "ord FOO") = .ok 70 := rfl

/-- C4 amended: a token naming no bound symbol fails with an explicit error
in numeric context when it does not parse as a numeral, but in string
context (`ord` operand) it is treated as opaque text and resolution
succeeds. -/
theorem c4_amended_numeric_fails_string_falls_back (st : Table) (tok : Str)
    (hb : lookupVar st tok = none) (hn : isNumber tok = false) :
    excOk (getNumberValue st tok) = false ∧ excOk (getStringValue st tok) = true := by
  constructor
  · have : getNumberValue st tok = parseNumber tok := by
      simp [getNumberValue, hb]
    rw [this, excOk_parseNumber, hn]
  · simp only [getStringValue, hb]
    split <;> rfl

theorem c4_amended_witness :
    lookupVar [] (s2l "FOO") = none ∧ isNumber (s2l "FOO") = false ∧
    excOk (getNumberValue [] (s2l "FOO")) = false ∧
    excOk (getStringValue [] (s2l "FOO")) = true :=
  ⟨rfl, rfl, c4_amended_numeric_fails_string_falls_back [] (s2l "FOO") rfl rfl⟩

/-- C5: with `A` and `B` bound to representable (64-bit) integers, the
expression forms `?(+ A B)` and `?(- A B)` are inverse-consistent: adding
`B` to `A` (with Go's wrap-around) and then subtracting `B` from the bound
sum yields `A` again. -/
theorem c5_add_sub_inverse (a b : Int)
    (ha1 : int64Min ≤ a) (ha2 : a ≤ int64Max)
    (_hb1 : int64Min ≤ b) (_hb2 : b ≤ int64Max) :
    evaluateExpression (setVar (setVar [] (s2l "A") (.int a)) (s2l "B") (.int b))
      (s2l "+ A B") = .ok (wrap64 (a + b)) ∧
    evaluateExpression
      (setVar (setVar (setVar [] (s2l "A") (.int a)) (s2l "B") (.int b)) (s2l "S")
        (.int (wrap64 (a + b)))) (s2l "- S B") = .ok a := by
  have key : wrap64 (wrap64 (a + b) - b) = a := by
    simp only [int64Min, int64Max] at ha1 ha2
    unfold wrap64
    have e63 : (2 : Int) ^ 63 = 9223372036854775808 := by norm_num
    have e64 : (2 : Int) ^ 64 = 18446744073709551616 := by norm_num
    rw [e63, e64] at *
    omega
  refine ⟨rfl, ?_⟩
  rw [show evaluateExpression
      (setVar (setVar (setVar [] (s2l "A") (.int a)) (s2l "B") (.int b)) (s2l "S")
        (.int (wrap64 (a + b)))) (s2l "- S B") = .ok (wrap64 (wrap64 (a + b) - b))
    from rfl, key]

theorem c5_add_sub_inverse_witness :
    evaluateExpression (setVar (setVar [] (s2l "A") (.int 5)) (s2l "B") (.int 7))
      (s2l "+ A B") = .ok (wrap64 (5 + 7)) ∧
    evaluateExpression
      (setVar (setVar (setVar [] (s2l "A") (.int 5)) (s2l "B") (.int 7)) (s2l "S")
        (.int (wrap64 (5 + 7)))) (s2l "- S B") = .ok 5 :=
  c5_add_sub_inverse 5 7 (by decide) (by decide) (by decide) (by decide)

/-- C6: an octal literal `0o<digits>` bound to a constant and referenced on
a key-value line emits the plain decimal rendering of the standard base-8
interpretation of the digits. -/
theorem c6_octal_normalized (ds : Str) (h0 : ds ≠ [])
    (hd : ∀ c ∈ ds, isOctDigit c = true)
    (hr : ((octInterp ds : Nat) : Int) ≤ int64Max) :
    handleConstant [] (s2l "N := 0o" ++ ds ++ s2l ";") =
      .ok [(s2l "N", .int (octInterp ds))] ∧
    handleKeyValue [(s2l "N", .int (octInterp ds))] (s2l "key = N") =
      .ok (s2l "key = " ++ formatInt (octInterp ds) ++ s2l "\n") := by
  obtain ⟨d, ds', rfl⟩ : ∃ d ds', ds = d :: ds' := by
    cases ds with
    | nil => exact absurd rfl h0
    | cons d ds' => exact ⟨d, ds', rfl⟩
  refine ⟨?_, rfl⟩
  have hoct := goParseOct_digits d ds' hd hr
  have hnum : isNumber ('0' :: 'o' :: d :: ds') = true := by
    rw [show isNumber ('0' :: 'o' :: d :: ds') = excOk (goParseOct (d :: ds')) from rfl, hoct]
    rfl
  have hparse : parseNumber ('0' :: 'o' :: d :: ds') = goParseOct (d :: ds') := rfl
  have hcol : ∀ c ∈ (' ' :: '0' :: 'o' :: d :: ds'), c ≠ ':' := by
    intro c hc
    simp only [List.mem_cons] at hc
    rcases hc with rfl | rfl | rfl | rfl | hmem
    · decide
    · decide
    · decide
    · exact ne_colon_of_oct _ (hd _ (by simp))
    · exact ne_colon_of_oct c (hd c (List.mem_cons_of_mem _ hmem))
  have hsplit :
      splitOnColonEq (trimSuf (s2l ";") ((s2l "N := 0o" ++ (d :: ds')) ++ [';'])) =
        [['N', ' '], ' ' :: '0' :: 'o' :: d :: ds'] := by
    rw [show (s2l ";") = [';'] from rfl, trimSuf_concat]
    rw [show s2l "N := 0o" ++ (d :: ds') =
        ['N', ' '] ++ ':' :: '=' :: (' ' :: '0' :: 'o' :: d :: ds') from rfl]
    rw [splitOnColonEq_append _ _ (by decide), splitOnColonEq_no_sep _ (hasCE_of_no_colon _ hcol)]
  rw [show s2l "N := 0o" ++ (d :: ds') ++ s2l ";" =
      (s2l "N := 0o" ++ (d :: ds')) ++ [';'] from by simp [s2l]]
  unfold handleConstant
  rw [hsplit]
  show handleConstantParts [] ['N', ' '] (' ' :: '0' :: 'o' :: d :: ds') =
    .ok [(s2l "N", .int (octInterp (d :: ds')))]
  simp only [handleConstantParts]
  rw [trimSpace_oct _ hd]
  rw [if_neg (by decide : ¬(isValidName (trimSpace ['N', ' ']) = false))]
  rw [if_neg (show ¬((hasPref (s2l "?(") ('0' :: 'o' :: d :: ds') &&
      hasSuf (s2l ")") ('0' :: 'o' :: d :: ds')) = true) from by
    simp [hasPref, s2l, List.isPrefixOf])]
  rw [if_neg (show ¬((hasPref (s2l "[") ('0' :: 'o' :: d :: ds') &&
      hasSuf (s2l "]") ('0' :: 'o' :: d :: ds')) = true) from by
    simp [hasPref, s2l, List.isPrefixOf])]
  rw [if_neg (show ¬((hasPref (s2l "@\"") ('0' :: 'o' :: d :: ds') &&
      hasSuf (s2l "\"") ('0' :: 'o' :: d :: ds')) = true) from by
    simp [hasPref, s2l, List.isPrefixOf])]
  rw [if_pos hnum, hparse, hoct]
  rfl

theorem c6_octal_normalized_witness :
    handleConstant [] (s2l "N := 0o" ++ s2l "755" ++ s2l ";") =
      .ok [(s2l "N", .int (octInterp (s2l "755")))] ∧
    handleKeyValue [(s2l "N", .int (octInterp (s2l "755")))] (s2l "key = N") =
      .ok (s2l "key = " ++ formatInt (octInterp (s2l "755")) ++ s2l "\n") :=
  c6_octal_normalized (s2l "755") (by decide) (by decide) (by decide)

/-- C7: a declaration `NAME := 1;` (NAME containing no `:=` and already
whitespace-trimmed) aborts with the name-validation error exactly when NAME
fails `^[A-Z_]+$`, and every conforming name is accepted, binding the
value. -/
theorem c7_name_validation (st : Table) (name : Str)
    (hce : hasCE name = false) (htr : trimSpace name = name) :
    (handleConstant st (name ++ s2l " := 1;") = .error (.invalidName name) ↔
      ¬ matchesNameRE name) ∧
    (matchesNameRE name →
      handleConstant st (name ++ s2l " := 1;") = .ok (setVar st name (.int 1))) := by
  have hmain : handleConstant st (name ++ s2l " := 1;") =
      (if isValidName name = false then .error (.invalidName name)
       else .ok (setVar st name (.int 1))) := by
    rw [show name ++ s2l " := 1;" = (name ++ [' ', ':', '=', ' ', '1']) ++ [';'] from by
      simp [s2l]]
    unfold handleConstant
    rw [show (s2l ";") = [';'] from rfl, trimSuf_concat]
    rw [show name ++ [' ', ':', '=', ' ', '1'] =
        (name ++ [' ']) ++ ':' :: '=' :: [' ', '1'] from by simp]
    rw [splitOnColonEq_append _ _ (hasCE_append_nonEq name ' ' (by decide) hce)]
    rw [show splitOnColonEq [' ', '1'] = [[' ', '1']] from rfl]
    show handleConstantParts st (name ++ [' ']) [' ', '1'] = _
    simp only [handleConstantParts]
    rw [trimSpace_append_space name htr]
    rw [show trimSpace [' ', '1'] = ['1'] from rfl]
    by_cases hv : isValidName name = false
    · rw [if_pos hv, if_pos hv]
    · rw [if_neg hv, if_neg hv]
      rfl
  constructor
  · rw [hmain]
    by_cases hv : isValidName name = true
    · rw [if_neg (by simp [hv])]
      exact iff_of_false (by simp) (not_not_intro ((isValidName_iff name).1 hv))
    · have hv' : isValidName name = false := by simpa using hv
      rw [if_pos hv']
      exact iff_of_true rfl (fun hm => absurd ((isValidName_iff name).2 hm) hv)
  · intro hm
    rw [hmain, if_neg (by simp [(isValidName_iff name).2 hm])]

theorem c7_name_validation_witness :
    handleConstant [] (s2l "FOO" ++ s2l " := 1;") =
      .ok (setVar [] (s2l "FOO") (.int 1)) :=
  (c7_name_validation [] (s2l "FOO") (by decide) (by decide)).2 (by decide)

/-- C10: a declaration value that starts with `?(` but does not end with `)`
is not rejected as an invalid expression: when it is no array, quoted
string, numeral, or bound name, it binds as opaque text and the conversion
continues. -/
theorem c10_unterminated_expr_binds_text (st : Table) (v : Str)
    (hsuf : hasSuf (s2l ")") ('?' :: '(' :: v) = false)
    (hce : hasCE ('?' :: '(' :: v) = false)
    (htr : trimSpace ('?' :: '(' :: v) = '?' :: '(' :: v)
    (hlook : lookupVar st ('?' :: '(' :: v) = none) :
    handleConstant st (s2l "N := " ++ ('?' :: '(' :: v) ++ s2l ";") =
      .ok (setVar st (s2l "N") (.str ('?' :: '(' :: v))) := by
  have h1 : hasCE (' ' :: '?' :: '(' :: v) = false := by
    rw [show hasCE (' ' :: '?' :: '(' :: v) =
        ((decide (' ' = ':' ∧ '?' = '=')) || hasCE ('?' :: '(' :: v)) from rfl, hce]
    rfl
  rw [show s2l "N := " ++ ('?' :: '(' :: v) ++ s2l ";" =
      ((s2l "N := " ++ ('?' :: '(' :: v)) ++ [';']) from by simp [s2l]]
  unfold handleConstant
  rw [show (s2l ";") = [';'] from rfl, trimSuf_concat]
  rw [show s2l "N := " ++ ('?' :: '(' :: v) =
      (['N', ' ']) ++ ':' :: '=' :: (' ' :: '?' :: '(' :: v) from rfl]
  rw [splitOnColonEq_append _ _ (by decide), splitOnColonEq_no_sep _ h1]
  show handleConstantParts st ['N', ' '] (' ' :: '?' :: '(' :: v) = _
  simp only [handleConstantParts]
  rw [trimSpace_cons_space, htr]
  rw [if_neg (by decide : ¬(isValidName (trimSpace ['N', ' ']) = false))]
  have hp : hasPref (s2l "?(") ('?' :: '(' :: v) = true := by
    simp [hasPref, s2l, List.isPrefixOf]
  rw [if_neg (show ¬((hasPref (s2l "?(") ('?' :: '(' :: v) &&
      hasSuf (s2l ")") ('?' :: '(' :: v)) = true) from by
    rw [hp, hsuf]
    simp)]
  rw [if_neg (show ¬((hasPref (s2l "[") ('?' :: '(' :: v) &&
      hasSuf (s2l "]") ('?' :: '(' :: v)) = true) from by
    simp [hasPref, s2l, List.isPrefixOf])]
  rw [if_neg (show ¬((hasPref (s2l "@\"") ('?' :: '(' :: v) &&
      hasSuf (s2l "\"") ('?' :: '(' :: v)) = true) from by
    simp [hasPref, s2l, List.isPrefixOf])]
  have hatoi : goAtoi ('?' :: '(' :: v) = .error .numParseError := by
    show (if '?' = '+' then goParseMag isDecDigit 10 false ('(' :: v)
      else if '?' = '-' then goParseMag isDecDigit 10 true ('(' :: v)
      else goParseMag isDecDigit 10 false ('?' :: '(' :: v)) = _
    rw [if_neg (by decide), if_neg (by decide)]
    unfold goParseMag
    rw [if_neg (List.cons_ne_nil _ _)]
    rw [if_neg (show ¬((('?' :: '(' :: v).all isDecDigit) = true) from by
      rw [List.all_cons, show isDecDigit '?' = false from by decide, Bool.false_and]
      simp)]
  have hnum : isNumber ('?' :: '(' :: v) = false := by
    rw [show isNumber ('?' :: '(' :: v) =
        (if (hasPref (s2l "0o") ('?' :: '(' :: v) || hasPref (s2l "0O") ('?' :: '(' :: v)) = true
         then excOk (goParseOct (('?' :: '(' :: v).drop 2))
         else excOk (goAtoi ('?' :: '(' :: v))) from rfl]
    rw [show hasPref (s2l "0o") ('?' :: '(' :: v) = false from by
      simp [hasPref, s2l, List.isPrefixOf]]
    rw [show hasPref (s2l "0O") ('?' :: '(' :: v) = false from by
      simp [hasPref, s2l, List.isPrefixOf]]
    rw [if_neg (by simp), hatoi]
    rfl
  rw [if_neg (show ¬(isNumber ('?' :: '(' :: v) = true) from by rw [hnum]; simp)]
  rw [hlook]
  rfl

theorem c10_unterminated_expr_binds_text_witness :
    handleConstant [] (s2l "N := " ++ ('?' :: '(' :: s2l "+ 1 2") ++ s2l ";") =
      .ok (setVar [] (s2l "N") (.str ('?' :: '(' :: s2l "+ 1 2"))) :=
  c10_unterminated_expr_binds_text [] (s2l "+ 1 2") (by decide) (by decide)
    (by decide) rfl

/-- C8: when the operand of `ord` resolves to empty text, evaluation fails
with the empty-string error, and the whole declaration `N := ?(ord S);`
fails the same way, binding nothing. -/
theorem c8_ord_empty_fails (st : Table)
    (hS : lookupVar st (s2l "S") = some (.str [])) :
    evaluateExpression st (s2l "ord S") = .error .emptyString ∧
    handleConstant st (s2l "N := ?(ord S);") = .error .emptyString := by
  have h1 : getStringValue st (s2l "S") = .ok [] := by
    simp [getStringValue, hS]
  have h2 : evaluateExpression st (s2l "ord S") = .error .emptyString := by
    rw [show evaluateExpression st (s2l "ord S") =
        (match getStringValue st (s2l "S") with
         | .error e => .error e
         | .ok s0 => ordCore s0) from rfl, h1]
    rfl
  refine ⟨h2, ?_⟩
  rw [show handleConstant st (s2l "N := ?(ord S);") =
      (match evaluateExpression st (s2l "ord S") with
       | .error e => .error e
       | .ok v => .ok (setVar st (s2l "N") (.int v))) from rfl, h2]

theorem c8_ord_empty_fails_witness :
    lookupVar [(s2l "S", Value.str [])] (s2l "S") = some (.str []) ∧
    handleConstant [(s2l "S", Value.str [])] (s2l "N := ?(ord S);") =
      .error .emptyString :=
  ⟨rfl, (c8_ord_empty_fails [(s2l "S", Value.str [])] rfl).2⟩

/-- C9 counterexample: the anonymous array stored by `[1, 2]` is reachable
from a later line that writes the synthesized name `_array_0` literally, and
it changes the produced output, so it is not outwardly inert for every later
line. -/
theorem c9_counterexample :
    ParseRun (s2l "[1, 2]\nx = _array_0") = .ok (s2l "x = [1, 2]\n") ∧
    ParseRun (s2l "x = _array_0") = .ok (s2l "x = \"_array_0\"\n") ∧
    s2l "x = [1, 2]\n" ≠ s2l "x = \"_array_0\"\n" :=
  ⟨rfl, rfl, by decide⟩

/-- C9 amended: every line the loop classifies as an anonymous array
literal (trims nonempty, not a line comment, not a constant declaration,
fully bracket-delimited, interior containing a comma and no equality sign)
stores its resolved elements under the synthesized name `_array_<count>`
(count = current table size) and emits no output; the stored value is,
however, not unreachable: a later line that spells the synthesized name
literally can reference it, so it may affect the produced output. -/
theorem c9_amended_anonymous_array_stored_silently (st : Table)
    (rawLine inner : Str) (arr : List Str)
    (hne : trimSpace rawLine ≠ [])
    (hcom : hasPref (s2l "//") (trimSpace rawLine) = false)
    (hconst : (containsSub (s2l ":=") (trimSpace rawLine) &&
      hasSuf (s2l ";") (trimSpace rawLine)) = false)
    (hbr : (hasPref (s2l "[") (trimSpace rawLine) &&
      hasSuf (s2l "]") (trimSpace rawLine)) = true)
    (hinner : inner = trimSpace (trimSuf (s2l "]") (trimPref (s2l "[") (trimSpace rawLine))))
    (harr : (containsSub (s2l ",") inner && !containsSub (s2l "=") inner) = true)
    (hres : resolveElems st (splitOnChar ',' inner) = .ok arr) :
    processLine st rawLine =
      .ok (setVar st (s2l "_array_" ++ formatInt (st.length : Int)) (.arr arr), []) := by
  simp only [processLine]
  rw [if_neg hne, if_neg (by simp [hcom]), if_neg (by simp [hconst]), if_pos hbr,
    ← hinner, if_pos harr, hres]

theorem c9_amended_witness :
    processLine [] (s2l "[1, 2]") =
      .ok ([(s2l "_array_0", Value.arr [s2l "1", s2l "2"])], []) := by
  rw [c9_amended_anonymous_array_stored_silently [] (s2l "[1, 2]") (s2l "1, 2")
    [s2l "1", s2l "2"] (by decide) (by decide) (by decide) (by decide) (by decide)
    (by decide) rfl]
  rfl

end ConfigConv
